import Mathlib

/-!
# Shallow embedding of `src/lib/store.js` (observable-store)

The source is a small publish/subscribe registry: a `Store` class owning

* a table of key paths to Rx `BehaviorSubject` instances (`_observables`),
* a table of subscriber identities to lists of subscription handles
  (`_subscriptions`),
* an injected observable factory, defaulting to `behaviorSubjectFactory`.

Modelling decisions, each tied to the source:

* The lodash `get`/`set`/`has` keyed tables are modelled as flat association
  lists keyed by the whole key path (type parameter `κ`).  For
  non-overlapping key paths — the only shape any claim exercises — lodash's
  nested-object semantics coincides with a flat map.
* A subscriber is an opaque, decidably-comparable identity (type parameter
  `σ`); published values have type `α`.
* The Rx `BehaviorSubject` collaborator is modelled from its documented
  contract (the `rx` package, hot replay-latest subject): it stores a
  current value, `subscribe` appends the callback and synchronously invokes
  it once with the current value, `onNext` stores the new value and invokes
  every attached callback in attachment order, and the returned disposable
  removes the callback from the subject.
* A JS callback produced by `observe` closes over `(subscriber, onValue,
  filter)`; its side effect — invoking `onValue(subscriber, filteredValue)`
  — is recorded as an `Event`.  `onValue` procedures are identified by a
  `Nat` tag; `filter` procedures are pure functions `σ → α → α`.
* JS exceptions are modelled with `Except`: the explicit
  `throw new Error(...)` in `initialize`, the `TypeError` fault of
  `undefined.onNext` in `publish` and of `undefined.forEach` in
  `unsubscribe` each get a distinct `StoreError` constructor named after
  the spec's error taxonomy for that failure site.
* `subscribe(subscriber)` in the source reads the configuration list from
  `subscriber.constructor.subscriptions`; the model passes the value of
  that property at call time as an explicit argument.
-/

set_option autoImplicit false

namespace ObservableStore

universe u v w

variable {κ : Type u} {σ : Type v} {α : Type w}

/-- One callback attached to a `BehaviorSubject` by `observe`: the disposable
handle identity, the subscriber it was registered for, the tag of its
`onValue` procedure and its (already defaulted) filter. -/
structure Observer (σ : Type v) (α : Type w) where
  handle : Nat
  subscriber : σ
  onValue : Nat
  filter : σ → α → α

/-- The Rx `BehaviorSubject` collaborator: current value plus the attached
callbacks in attachment order. -/
structure BehaviorSubject (σ : Type v) (α : Type w) where
  current : α
  observers : List (Observer σ α)

/-- A recorded invocation `onValue(subscriber, value)`. -/
structure Event (σ : Type v) (α : Type w) where
  subscriber : σ
  onValue : Nat
  value : α

/-- `function passThroughFilter(subscriber, value) { return value; }` -/
def passThroughFilter (_subscriber : σ) (value : α) : α :=
  value

/-- The dispatch a subject performs for one attached callback on a value
`v`: the callback installed by `observe` runs
`onValue(subscriber, filter(subscriber, v))`. -/
def dispatchEvent (o : Observer σ α) (v : α) : Event σ α :=
  ⟨o.subscriber, o.onValue, o.filter o.subscriber v⟩

/-- `observable.subscribe(callback)` on a `BehaviorSubject`: appends the
callback and synchronously replays the current value to it once. Returns the
updated subject and the replayed invocation. -/
def BehaviorSubject.attach (s : BehaviorSubject σ α) (o : Observer σ α) :
    BehaviorSubject σ α × List (Event σ α) :=
  ({ s with observers := s.observers ++ [o] }, [dispatchEvent o s.current])

/-- `subject.onNext(v)`: records `v` as the current value and invokes every
attached callback with `v`, in attachment order. -/
def BehaviorSubject.onNext (s : BehaviorSubject σ α) (v : α) :
    BehaviorSubject σ α × List (Event σ α) :=
  ({ s with current := v }, s.observers.map (fun o => dispatchEvent o v))

/-- `disposable.dispose()`: removes the callback with this handle from the
subject it was attached to. -/
def BehaviorSubject.dispose (s : BehaviorSubject σ α) (h : Nat) :
    BehaviorSubject σ α :=
  { s with observers := s.observers.filter (fun o => decide (o.handle ≠ h)) }

/-- `function behaviorSubjectFactory(key, defaultValue) { return new
BehaviorSubject(defaultValue); }` -/
def behaviorSubjectFactory (_key : κ) (defaultValue : α) :
    BehaviorSubject σ α :=
  ⟨defaultValue, []⟩

/-- Lookup in a keyed table (lodash `get` on a flat key). -/
def findEntry [DecidableEq κ] {β : Type w} (k : κ) :
    List (κ × β) → Option β
  | [] => none
  | (k', b) :: rest => if k' = k then some b else findEntry k rest

/-- Replace the value stored under `k` (lodash `set` on a present flat key). -/
def updateEntry [DecidableEq κ] {β : Type w} (k : κ) (b : β) :
    List (κ × β) → List (κ × β)
  | [] => []
  | (k', b') :: rest =>
      if k' = k then (k', b) :: rest else (k', b') :: updateEntry k b rest

/-- One subscription configuration entry
`{ observableKey, onValue, filter? }`. -/
structure Config (κ : Type u) (σ : Type v) (α : Type w) where
  observableKey : κ
  onValue : Nat
  filter : Option (σ → α → α)

/-- The errors the source can raise, one constructor per failure site, named
after the spec's taxonomy: the explicit throw in `initialize`, the
`TypeError` fault of `undefined.onNext` in `publish` (and of the undefined
lookup in `subscribe`), and the `TypeError` fault of `undefined.forEach` in
`unsubscribe`. -/
inductive StoreError (κ : Type u) (σ : Type v) where
  | duplicateInitialization (key : κ)
  | unknownObservable (key : κ)
  | notSubscribed (subscriber : σ)

/-- The registry state: the `_observables` table, the `_subscriptions` table
(each handle recorded with the key path of the subject it is attached to),
and a counter supplying fresh handle identities. -/
structure Store (κ : Type u) (σ : Type v) (α : Type w) where
  observables : List (κ × BehaviorSubject σ α)
  subscriptions : List (σ × List (κ × Nat))
  nextHandle : Nat

/-- `new Store()` with the default factory: both tables empty. -/
def Store.empty : Store κ σ α :=
  ⟨[], [], 0⟩

/-- `Store.initialize(key, defaultValue)`: throws if the key path is already
present, otherwise stores a fresh subject built by the (default) factory. -/
def Store.initialize [DecidableEq κ] (st : Store κ σ α) (k : κ) (v : α) :
    Except (StoreError κ σ) (Store κ σ α) :=
  match findEntry k st.observables with
  | some _ => .error (.duplicateInitialization k)
  | none =>
      .ok { st with
              observables :=
                st.observables ++ [(k, behaviorSubjectFactory k v)] }

/-- `Store.isInitialized(key)`: lodash `has` on the observables table. -/
def Store.isInitialized [DecidableEq κ] (st : Store κ σ α) (k : κ) : Bool :=
  (findEntry k st.observables).isSome

/-- The dispose loop of `Store.unsubscribe`: `dispose()` each recorded
handle on the subject it was attached to. -/
def disposeAll [DecidableEq κ] (handles : List (κ × Nat))
    (obs : List (κ × BehaviorSubject σ α)) :
    List (κ × BehaviorSubject σ α) :=
  handles.foldl
    (fun obs kh =>
      match findEntry kh.1 obs with
      | none => obs
      | some subj => updateEntry kh.1 (subj.dispose kh.2) obs)
    obs

/-- `Store.unsubscribe(subscriber)`: disposes every handle in the
subscriber's handle list, then deletes the entry.  A missing entry faults
(`undefined.forEach` in the source). -/
def Store.unsubscribe [DecidableEq κ] [DecidableEq σ]
    (st : Store κ σ α) (s : σ) :
    Except (StoreError κ σ) (Store κ σ α) :=
  match findEntry s st.subscriptions with
  | none => .error (.notSubscribed s)
  | some handles =>
      .ok { st with
              observables := disposeAll handles st.observables,
              subscriptions :=
                st.subscriptions.filter (fun p => decide (p.1 ≠ s)) }

/-- The `forEach` loop of `Store.subscribe`: for each configuration entry in
order, `observe` the referenced subject (faulting if the key path holds no
subject) and collect the disposable handles in order, threading fresh handle
identities and the synchronously replayed invocations. -/
def subscribeConfigs [DecidableEq κ]
    (s : σ) (obs : List (κ × BehaviorSubject σ α)) (next : Nat) :
    List (Config κ σ α) →
    Except (StoreError κ σ)
      (List (κ × BehaviorSubject σ α) × List (κ × Nat) × Nat ×
        List (Event σ α))
  | [] => .ok (obs, [], next, [])
  | c :: rest =>
      match findEntry c.observableKey obs with
      | none => .error (.unknownObservable c.observableKey)
      | some subj =>
          match subscribeConfigs s
              (updateEntry c.observableKey
                (subj.attach
                  ⟨next, s, c.onValue, c.filter.getD passThroughFilter⟩).1
                obs)
              (next + 1) rest with
          | .error e => .error e
          | .ok (obs', hs, n', evs) =>
              .ok (obs', (c.observableKey, next) :: hs, n',
                (subj.attach
                  ⟨next, s, c.onValue, c.filter.getD passThroughFilter⟩).2
                  ++ evs)

/-- The install phase of `Store.subscribe`:
`subscriptions(this)[subscriber] = []` followed by the `forEach` over the
configuration entries, which pushes one handle per entry, in order. -/
def subscribeInstall [DecidableEq κ] [DecidableEq σ]
    (st : Store κ σ α) (s : σ) (configs : List (Config κ σ α)) :
    Except (StoreError κ σ) (Store κ σ α × List (Event σ α)) :=
  match subscribeConfigs s st.observables st.nextHandle configs with
  | .error e => .error e
  | .ok (obs', hs, n', evs) =>
      .ok ({ st with
               observables := obs',
               subscriptions := st.subscriptions ++ [(s, hs)],
               nextHandle := n' },
           evs)

/-- `Store.subscribe(subscriber)`: tears down an existing entry first
(the `some` branch inlines `this.unsubscribe(subscriber)`, whose success
the truthiness guard guarantees — compare `Store.unsubscribe`), then
registers one observer per configuration entry, in order, recording the
handles under the subscriber.  `configs` is the value of
`subscriber.constructor.subscriptions` at call time. -/
def Store.subscribe [DecidableEq κ] [DecidableEq σ]
    (st : Store κ σ α) (s : σ) (configs : List (Config κ σ α)) :
    Except (StoreError κ σ) (Store κ σ α × List (Event σ α)) :=
  match findEntry s st.subscriptions with
  | some handles =>
      subscribeInstall
        { st with
            observables := disposeAll handles st.observables,
            subscriptions :=
              st.subscriptions.filter (fun p => decide (p.1 ≠ s)) }
        s configs
  | none => subscribeInstall st s configs

/-- `Store.publish(key, nextValue)`: looks the subject up and emits to it;
an absent subject faults (`undefined.onNext` in the source). -/
def Store.publish [DecidableEq κ] (st : Store κ σ α) (k : κ) (v : α) :
    Except (StoreError κ σ) (Store κ σ α × List (Event σ α)) :=
  match findEntry k st.observables with
  | none => .error (.unknownObservable k)
  | some subj =>
      .ok ({ st with
               observables := updateEntry k (subj.onNext v).1 st.observables },
           (subj.onNext v).2)

/-- Modelled from the spec: the source under `src/` does not define
`hasSubscriptions`; the spec's Registry API lists it as the pure query
"true iff the subscriber currently has an entry in the subscription
table". -/
def Store.hasSubscriptions [DecidableEq σ] (st : Store κ σ α) (s : σ) :
    Bool :=
  (findEntry s st.subscriptions).isSome

/-- Every observer handle recorded in the observables table is below the
fresh-handle counter; holds in every reachable store. -/
def Store.handlesBounded (st : Store κ σ α) : Bool :=
  st.observables.all (fun e =>
    e.2.observers.all (fun o => decide (o.handle < st.nextHandle)))

/-- Every observer registered for subscriber `s` has its handle recorded,
with its key path, in `s`'s entry of the subscription table; holds in every
reachable store. -/
def Store.subscriberRecorded [DecidableEq κ] [DecidableEq σ]
    (st : Store κ σ α) (s : σ) : Bool :=
  st.observables.all (fun e =>
    e.2.observers.all (fun o =>
      if o.subscriber = s then
        match findEntry s st.subscriptions with
        | none => false
        | some hs => decide ((e.1, o.handle) ∈ hs)
      else true))

section AssocLemmas

variable [DecidableEq κ] {β : Type w}

@[simp] theorem findEntry_nil (k : κ) :
    findEntry k ([] : List (κ × β)) = none :=
  rfl

@[simp] theorem findEntry_cons (k k' : κ) (b : β) (l : List (κ × β)) :
    findEntry k ((k', b) :: l) =
      if k' = k then some b else findEntry k l :=
  rfl

@[simp] theorem updateEntry_nil (k : κ) (b : β) :
    updateEntry k b ([] : List (κ × β)) = [] :=
  rfl

@[simp] theorem updateEntry_cons (k k' : κ) (b b' : β) (l : List (κ × β)) :
    updateEntry k b ((k', b') :: l) =
      if k' = k then (k', b) :: l else (k', b') :: updateEntry k b l :=
  rfl

theorem findEntry_append (k : κ) (l1 l2 : List (κ × β)) :
    findEntry k (l1 ++ l2) =
      match findEntry k l1 with
      | some b => some b
      | none => findEntry k l2 := by
  induction l1 with
  | nil => simp
  | cons p rest ih =>
      obtain ⟨k', b⟩ := p
      by_cases h : k' = k <;> simp [h, ih]

theorem findEntry_update_self (k : κ) (b : β) (l : List (κ × β)) :
    findEntry k (updateEntry k b l) = (findEntry k l).map (fun _ => b) := by
  induction l with
  | nil => simp
  | cons p rest ih =>
      obtain ⟨k', b'⟩ := p
      by_cases h : k' = k <;> simp [h, ih]

theorem findEntry_update_ne (k k' : κ) (b : β) (l : List (κ × β))
    (h : k' ≠ k) :
    findEntry k' (updateEntry k b l) = findEntry k' l := by
  induction l with
  | nil => simp
  | cons p rest ih =>
      obtain ⟨k'', b'⟩ := p
      by_cases hk : k'' = k
      · subst hk
        simp [Ne.symm h]
      · by_cases hk' : k'' = k' <;> simp [hk, hk', h, ih]

theorem findEntry_filter_ne_self (s : κ) (l : List (κ × β)) :
    findEntry s (l.filter (fun p => decide (p.1 ≠ s))) = none := by
  induction l with
  | nil => simp
  | cons p rest ih =>
      obtain ⟨k', b⟩ := p
      simp only [ne_eq, decide_not] at ih ⊢
      by_cases h : k' = s <;> simp [List.filter, h, ih]

theorem findEntry_some_mem {k : κ} {b : β} {l : List (κ × β)}
    (h : findEntry k l = some b) : (k, b) ∈ l := by
  induction l with
  | nil => simp at h
  | cons p rest ih =>
      obtain ⟨k', b'⟩ := p
      by_cases hk : k' = k
      · subst hk
        simp at h
        simp [h]
      · simp [hk] at h
        exact List.mem_cons_of_mem _ (ih h)

theorem findEntry_isSome_of_mem {k : κ} {b : β} {l : List (κ × β)}
    (h : (k, b) ∈ l) : (findEntry k l).isSome = true := by
  induction l with
  | nil => simp at h
  | cons p rest ih =>
      obtain ⟨k', b'⟩ := p
      rcases List.mem_cons.mp h with h | h
      · obtain ⟨h1, h2⟩ := Prod.mk.injEq .. ▸ h
        simp [h1]
      · by_cases hk : k' = k <;> simp [hk, ih h]

end AssocLemmas

section StructureLemmas

variable [DecidableEq κ]

/-- What one `forEach` pass of `Store.subscribe` produces: one handle per
configuration entry, in configuration order, with fresh consecutive handle
identities, and each referenced subject extended at the end of its observer
list by observers registered for `s` whose handles are exactly the recorded
ones. -/
theorem subscribeConfigs_spec (s : σ) (cs : List (Config κ σ α)) :
    ∀ (obs obs' : List (κ × BehaviorSubject σ α)) (next n' : Nat)
      (hs : List (κ × Nat)) (evs : List (Event σ α)),
      subscribeConfigs s obs next cs = .ok (obs', hs, n', evs) →
      hs.map Prod.fst = cs.map Config.observableKey ∧
      n' = next + cs.length ∧
      (∀ p ∈ hs, next ≤ p.2 ∧ p.2 < n') ∧
      (∀ k subj2, findEntry k obs' = some subj2 →
        ∃ subj neu, findEntry k obs = some subj ∧
          subj2.current = subj.current ∧
          subj2.observers = subj.observers ++ neu ∧
          ∀ o ∈ neu, next ≤ o.handle ∧ o.handle < n' ∧
            o.subscriber = s ∧ (k, o.handle) ∈ hs) := by
  induction cs with
  | nil =>
      intro obs obs' next n' hs evs heq
      simp [subscribeConfigs] at heq
      obtain ⟨h1, h2, h3, _⟩ := heq
      subst h1; subst h2; subst h3
      refine ⟨rfl, rfl, by simp, ?_⟩
      intro k subj2 hk
      exact ⟨subj2, [], hk, rfl, by simp, by simp⟩
  | cons c rest ih =>
      intro obs obs' next n' hs evs heq
      rw [subscribeConfigs] at heq
      split at heq
      · exact absurd heq (by simp)
      · rename_i subj0 hfind
        split at heq
        · exact absurd heq (by simp)
        · rename_i r obs1 hs1 n1 evs1 hrec
          simp only [Except.ok.injEq, Prod.mk.injEq] at heq
          obtain ⟨h1, h2, h3, _⟩ := heq
          subst h1; subst h2; subst h3
          obtain ⟨ihmap, ihn, ihbound, ihstruct⟩ := ih _ _ _ _ _ _ hrec
          refine ⟨by simp [ihmap], by simp only [List.length_cons]; omega,
            ?_, ?_⟩
          · intro p hp
            rcases List.mem_cons.mp hp with hp | hp
            · subst hp
              constructor
              · exact Nat.le_refl _
              · omega
            · have := ihbound p hp
              omega
          · intro k subj2 hk
            obtain ⟨subj1, neu1, hfind1, hcur1, hobs1, hnew1⟩ :=
              ihstruct k subj2 hk
            by_cases hkey : c.observableKey = k
            · subst hkey
              rw [findEntry_update_self, hfind] at hfind1
              obtain rfl : (subj0.attach
                  ⟨next, s, c.onValue, c.filter.getD passThroughFilter⟩).1 =
                    subj1 := Option.some.inj hfind1
              refine ⟨subj0,
                ⟨next, s, c.onValue, c.filter.getD passThroughFilter⟩ :: neu1,
                hfind, ?_, ?_, ?_⟩
              · simpa [BehaviorSubject.attach] using hcur1
              · simp only [BehaviorSubject.attach] at hobs1
                simp [hobs1]
              · intro o ho
                rcases List.mem_cons.mp ho with ho | ho
                · subst ho
                  refine ⟨Nat.le_refl _, ?_, rfl, by simp⟩
                  show next < _
                  omega
                · obtain ⟨hb1, hb2, hb3, hb4⟩ := hnew1 o ho
                  exact ⟨by omega, hb2, hb3, List.mem_cons_of_mem _ hb4⟩
            · rw [findEntry_update_ne _ _ _ _ (fun h => hkey h.symm)]
                at hfind1
              refine ⟨subj1, neu1, hfind1, hcur1, hobs1, ?_⟩
              intro o ho
              obtain ⟨hb1, hb2, hb3, hb4⟩ := hnew1 o ho
              exact ⟨by omega, hb2, hb3, List.mem_cons_of_mem _ hb4⟩

/-- The `forEach` pass of `subscribe` never deletes a table entry. -/
theorem subscribeConfigs_none (s : σ) (cs : List (Config κ σ α)) :
    ∀ (obs obs' : List (κ × BehaviorSubject σ α)) (next n' : Nat)
      (hs : List (κ × Nat)) (evs : List (Event σ α)),
      subscribeConfigs s obs next cs = .ok (obs', hs, n', evs) →
      ∀ k, findEntry k obs' = none → findEntry k obs = none := by
  induction cs with
  | nil =>
      intro obs obs' next n' hs evs heq k hk
      simp [subscribeConfigs] at heq
      obtain ⟨h1, _, _, _⟩ := heq
      subst h1
      exact hk
  | cons c rest ih =>
      intro obs obs' next n' hs evs heq k hk
      rw [subscribeConfigs] at heq
      split at heq
      · exact absurd heq (by simp)
      · rename_i subj0 hfind
        split at heq
        · exact absurd heq (by simp)
        · rename_i r obs1 hs1 n1 evs1 hrec
          simp only [Except.ok.injEq, Prod.mk.injEq] at heq
          obtain ⟨h1, _, _, _⟩ := heq
          subst h1
          have hnone := ih _ _ _ _ _ _ hrec k hk
          by_cases hkey : c.observableKey = k
          · subst hkey
            rw [findEntry_update_self, hfind] at hnone
            exact absurd hnone (by simp)
          · rwa [findEntry_update_ne _ _ _ _ (fun h => hkey h.symm)]
              at hnone

/-- The dispose loop of `unsubscribe` never adds observers, never changes a
subject's current value, never creates or removes table entries, and after
it runs no subject retains an observer whose `(key, handle)` pair was in the
disposed list. -/
theorem disposeAll_structure (handles : List (κ × Nat)) :
    ∀ (obs : List (κ × BehaviorSubject σ α)) (k : κ),
      (findEntry k obs = none →
        findEntry k (disposeAll handles obs) = none) ∧
      (∀ subj2, findEntry k (disposeAll handles obs) = some subj2 →
        ∃ subj, findEntry k obs = some subj ∧
          subj2.current = subj.current ∧
          ∀ o ∈ subj2.observers, o ∈ subj.observers ∧
            (k, o.handle) ∉ handles) := by
  induction handles with
  | nil =>
      intro obs k
      refine ⟨fun h => h, fun subj2 h => ⟨subj2, h, rfl, ?_⟩⟩
      intro o ho
      exact ⟨ho, by simp⟩
  | cons kh rest ih =>
      intro obs k
      obtain ⟨k1, h1⟩ := kh
      have hstep : disposeAll ((k1, h1) :: rest) obs =
          disposeAll rest
            (match findEntry k1 obs with
             | none => obs
             | some subj => updateEntry k1 (subj.dispose h1) obs) := rfl
      constructor
      · intro hnone
        rw [hstep]
        cases hfind : findEntry k1 obs with
        | none =>
            exact (ih obs k).1 hnone
        | some subj0 =>
            refine (ih _ k).1 ?_
            by_cases hk : k1 = k
            · subst hk
              rw [hfind] at hnone
              exact absurd hnone (by simp)
            · rw [findEntry_update_ne _ _ _ _ (fun h => hk h.symm)]
              exact hnone
      · intro subj2 hsubj2
        rw [hstep] at hsubj2
        cases hfind : findEntry k1 obs with
        | none =>
            rw [hfind] at hsubj2
            obtain ⟨subj, hfs, hcur, hmem⟩ := (ih obs k).2 subj2 hsubj2
            refine ⟨subj, hfs, hcur, ?_⟩
            intro o ho
            obtain ⟨ho1, ho2⟩ := hmem o ho
            refine ⟨ho1, ?_⟩
            intro hin
            rcases List.mem_cons.mp hin with hin | hin
            · obtain ⟨hk1, _⟩ := Prod.mk.injEq .. ▸ hin
              subst hk1
              rw [hfs] at hfind
              exact absurd hfind (by simp)
            · exact ho2 hin
        | some subj0 =>
            rw [hfind] at hsubj2
            obtain ⟨subj1, hfs1, hcur1, hmem1⟩ :=
              (ih _ k).2 subj2 hsubj2
            by_cases hk : k1 = k
            · subst hk
              rw [findEntry_update_self, hfind] at hfs1
              obtain rfl : subj0.dispose h1 = subj1 := Option.some.inj hfs1
              refine ⟨subj0, hfind, ?_, ?_⟩
              · simpa [BehaviorSubject.dispose] using hcur1
              · intro o ho
                obtain ⟨ho1, ho2⟩ := hmem1 o ho
                simp only [BehaviorSubject.dispose, List.mem_filter,
                  decide_eq_true_eq, ne_eq] at ho1
                obtain ⟨ho1, hone⟩ := ho1
                refine ⟨ho1, ?_⟩
                intro hin
                rcases List.mem_cons.mp hin with hin | hin
                · obtain ⟨_, hh⟩ := Prod.mk.injEq .. ▸ hin
                  exact hone hh
                · exact ho2 hin
            · rw [findEntry_update_ne _ _ _ _ (fun h => hk h.symm)] at hfs1
              refine ⟨subj1, hfs1, hcur1, ?_⟩
              intro o ho
              obtain ⟨ho1, ho2⟩ := hmem1 o ho
              refine ⟨ho1, ?_⟩
              intro hin
              rcases List.mem_cons.mp hin with hin | hin
              · obtain ⟨hk1, _⟩ := Prod.mk.injEq .. ▸ hin
                exact hk hk1.symm
              · exact ho2 hin

end StructureLemmas

section Claims

variable [DecidableEq κ] [DecidableEq σ]

omit [DecidableEq σ] in
/-- C4: for a key path `K` not previously initialized,
`initialize(K, v)` makes `isInitialized(K)` true, and a second
`initialize(K, v2)` fails with `DuplicateInitializationError`.  The guard
precedes the mutation in the source, so the error branch commits no state
change: the subject stored under `K` and the rest of the table are those of
the state before the failing call. -/
theorem initialize_then_duplicate_fails
    (st : Store κ σ α) (k : κ) (v v2 : α)
    (h : st.isInitialized k = false) :
    ∃ st1 : Store κ σ α, Store.initialize st k v = .ok st1 ∧
      st1.isInitialized k = true ∧
      Store.initialize st1 k v2 = .error (.duplicateInitialization k) := by
  cases hn : findEntry k st.observables with
  | some b =>
      rw [Store.isInitialized, hn] at h
      simp at h
  | none =>
      have hsome :
          findEntry k (st.observables ++ [(k, behaviorSubjectFactory k v)]) =
            some (behaviorSubjectFactory k v) := by
        rw [findEntry_append, hn]
        simp
      refine ⟨{ st with observables :=
        st.observables ++ [(k, behaviorSubjectFactory k v)] }, ?_, ?_, ?_⟩
      · simp only [ Store.initialize, hn]
      · simp [Store.isInitialized, hsome]
      · simp only [ Store.initialize, hsome]

/-- C4 witness: a concrete run on the empty store. -/
theorem initialize_then_duplicate_fails_witness :
    (Store.empty : Store Nat Nat Int).isInitialized 0 = false ∧
    ∃ st1 : Store Nat Nat Int,
      Store.initialize (Store.empty : Store Nat Nat Int) 0 1 = .ok st1 ∧
      st1.isInitialized 0 = true ∧
      Store.initialize st1 0 2 = .error (.duplicateInitialization 0) :=
  ⟨by decide, initialize_then_duplicate_fails Store.empty 0 1 2 (by decide)⟩

omit [DecidableEq σ] in
/-- C5: `publish(K, v)` fails, with the error of the unknown-observable
failure site, exactly when `K` holds no registered observable, and succeeds
exactly when `K` is initialized; the value is never dropped without
signaling. -/
theorem publish_succeeds_iff_initialized
    (st : Store κ σ α) (k : κ) (v : α) :
    (st.isInitialized k = false →
      st.publish k v = .error (.unknownObservable k)) ∧
    (st.isInitialized k = true →
      ∃ out, st.publish k v = .ok out) := by
  constructor
  · intro h
    cases hn : findEntry k st.observables with
    | some b =>
        rw [Store.isInitialized, hn] at h
        simp at h
    | none => simp only [Store.publish, hn]
  · intro h
    cases hn : findEntry k st.observables with
    | none =>
        rw [Store.isInitialized, hn] at h
        simp at h
    | some subj =>
        refine ⟨({ st with
          observables := updateEntry k (subj.onNext v).1 st.observables },
          (subj.onNext v).2), ?_⟩
        simp only [Store.publish, hn]

/-- C5 witness: publish on the empty store faults; publish after
initialization succeeds. -/
theorem publish_succeeds_iff_initialized_witness :
    ((Store.empty : Store Nat Nat Int).isInitialized 0 = false ∧
      (Store.empty : Store Nat Nat Int).publish 0 5 =
        .error (.unknownObservable 0)) ∧
    ((⟨[(0, ⟨7, []⟩)], [], 0⟩ : Store Nat Nat Int).isInitialized 0 = true ∧
      ∃ out, (⟨[(0, ⟨7, []⟩)], [], 0⟩ : Store Nat Nat Int).publish 0 5 =
        .ok out) :=
  ⟨⟨by decide,
    (publish_succeeds_iff_initialized Store.empty 0 5).1 (by decide)⟩,
   ⟨by decide,
    (publish_succeeds_iff_initialized ⟨[(0, ⟨7, []⟩)], [], 0⟩ 0 5).2
      (by decide)⟩⟩

omit [DecidableEq κ] in
/-- C6 (the source exposes no `hasSubscriptions`; the query is modelled from
the spec): `hasSubscriptions(subscriber)` is a total function of the state —
a pure query that cannot throw — and returns `true` exactly when the
subscriber has an entry in the subscription table. -/
theorem hasSubscriptions_iff_entry (st : Store κ σ α) (s : σ) :
    st.hasSubscriptions s = true ↔ ∃ hs, (s, hs) ∈ st.subscriptions := by
  constructor
  · intro h
    rw [Store.hasSubscriptions] at h
    cases hn : findEntry s st.subscriptions with
    | none =>
        rw [hn] at h
        simp at h
    | some hs => exact ⟨hs, findEntry_some_mem hn⟩
  · rintro ⟨hs, hmem⟩
    rw [Store.hasSubscriptions]
    exact findEntry_isSome_of_mem hmem

/-- C9: `unsubscribe` on a subscriber with no entry deterministically
raises: the fault of the missing-entry site (`undefined.forEach` in the
source, modelled as the not-subscribed error), both in general and
immediately after a successful `unsubscribe`. -/
theorem unsubscribe_missing_entry_raises (st : Store κ σ α) (s : σ) :
    (findEntry s st.subscriptions = none →
      st.unsubscribe s = .error (.notSubscribed s)) ∧
    (∀ st1, st.unsubscribe s = .ok st1 →
      st1.unsubscribe s = .error (.notSubscribed s)) := by
  constructor
  · intro h
    simp only [Store.unsubscribe, h]
  · intro st1 h
    rw [Store.unsubscribe] at h
    cases hn : findEntry s st.subscriptions with
    | none =>
        rw [hn] at h
        exact absurd h (by simp)
    | some handles =>
        rw [hn] at h
        obtain rfl := Except.ok.inj h
        have hn2 :
            findEntry s
              (st.subscriptions.filter (fun p => decide (p.1 ≠ s))) = none :=
          findEntry_filter_ne_self s _
        simp only [Store.unsubscribe, hn2]

/-- C9 witness: unsubscribing twice in a row on a store with one
subscription; the second call raises. -/
theorem unsubscribe_missing_entry_raises_witness :
    ((Store.empty : Store Nat Nat Int).unsubscribe 3 =
      .error (.notSubscribed 3)) ∧
    ∃ st1 : Store Nat Nat Int,
      (⟨[(0, ⟨7, []⟩)], [(3, [])], 0⟩ : Store Nat Nat Int).unsubscribe 3 =
        .ok st1 ∧
      st1.unsubscribe 3 = .error (.notSubscribed 3) :=
  ⟨(unsubscribe_missing_entry_raises Store.empty 3).1 (by decide),
   ⟨_, rfl,
    (unsubscribe_missing_entry_raises
        (⟨[(0, ⟨7, []⟩)], [(3, [])], 0⟩ : Store Nat Nat Int) 3).2 _ rfl⟩⟩

/-- C1: for an initialized key path, `publish` synchronously invokes the
dispatch of every registration currently attached to that key path, exactly
once each (one event per attached observer), in the order of the attachment
list, passing the published value through the registration's filter; and
`subscribe` only ever appends to an attachment list, so the attachment list
is in registration order. -/
theorem publish_dispatches_registrations_in_order
    (st : Store κ σ α) (k : κ) (v : α) (subj : BehaviorSubject σ α)
    (hk : findEntry k st.observables = some subj) :
    (∃ st', st.publish k v =
        .ok (st', subj.observers.map (fun o => dispatchEvent o v)) ∧
      (subj.observers.map (fun o => dispatchEvent o v)).length =
        subj.observers.length) ∧
    (∀ (s : σ) (cs : List (Config κ σ α)) (st1 : Store κ σ α)
        (evs : List (Event σ α)),
      st.hasSubscriptions s = false →
      st.subscribe s cs = .ok (st1, evs) →
      ∃ subj' neu, findEntry k st1.observables = some subj' ∧
        subj'.observers = subj.observers ++ neu) := by
  constructor
  · refine ⟨{ st with
        observables := updateEntry k (subj.onNext v).1 st.observables },
      ?_, by simp⟩
    simp only [Store.publish, hk, BehaviorSubject.onNext]
  · intro s cs st1 evs hno hsub
    rw [Store.hasSubscriptions] at hno
    cases hfe : findEntry s st.subscriptions with
    | some pre =>
        rw [hfe] at hno
        exact absurd hno (by simp)
    | none =>
        simp only [Store.subscribe, hfe, subscribeInstall] at hsub
        split at hsub
        · exact absurd hsub (by simp)
        · rename_i r obs' hs n' evs' hrec
          simp only [Except.ok.injEq, Prod.mk.injEq] at hsub
          obtain ⟨h1, _⟩ := hsub
          subst h1
          cases hofind : findEntry k obs' with
          | none =>
              have := subscribeConfigs_none s cs _ _ _ _ _ _ hrec k hofind
              rw [hk] at this
              exact absurd this (by simp)
          | some subj2 =>
              obtain ⟨subjX, neu, hfX, _, hobsX, _⟩ :=
                (subscribeConfigs_spec s cs _ _ _ _ _ _ hrec).2.2.2 k subj2
                  hofind
              rw [hk] at hfX
              obtain rfl := Option.some.inj hfX
              exact ⟨subj2, neu, rfl, hobsX⟩

/-- C1 witness: a store with one registration for key path 0; publish
delivers exactly one dispatch, with the published value. -/
theorem publish_dispatches_registrations_in_order_witness :
    ∃ st' : Store Nat Nat Int,
      (⟨[(0, ⟨7, [⟨0, 2, 10, passThroughFilter⟩]⟩)], [(2, [(0, 0)])], 1⟩ :
          Store Nat Nat Int).publish 0 5 =
        .ok (st', [⟨2, 10, 5⟩]) := by
  obtain ⟨st', h, _⟩ :=
    (publish_dispatches_registrations_in_order
      (⟨[(0, ⟨7, [⟨0, 2, 10, passThroughFilter⟩]⟩)], [(2, [(0, 0)])], 1⟩ :
        Store Nat Nat Int) 0 5 ⟨7, [⟨0, 2, 10, passThroughFilter⟩]⟩ rfl).1
  exact ⟨st', h⟩

/-- C2: two distinct subscribers on the same key path, A subscribed first
and still active: publishing invokes both onValue procedures with the
published value, A's before B's. -/
theorem publish_two_subscribers_in_order
    (a b : σ) (k : κ) (d v : α) (onA onB : Nat)
    (st1 st2 st3 : Store κ σ α) (evs2 evs3 : List (Event σ α))
    (hab : a ≠ b)
    (h1 : Store.initialize (Store.empty : Store κ σ α) k d = .ok st1)
    (h2 : st1.subscribe a [⟨k, onA, none⟩] = .ok (st2, evs2))
    (h3 : st2.subscribe b [⟨k, onB, none⟩] = .ok (st3, evs3)) :
    ∃ st4, st3.publish k v = .ok (st4, [⟨a, onA, v⟩, ⟨b, onB, v⟩]) := by
  simp [ Store.initialize, Store.empty, behaviorSubjectFactory] at h1
  obtain rfl := h1
  simp [Store.subscribe, subscribeInstall, subscribeConfigs,
    BehaviorSubject.attach,
    dispatchEvent, passThroughFilter] at h2
  obtain ⟨rfl, rfl⟩ := h2
  simp [Store.subscribe, subscribeInstall, subscribeConfigs,
    BehaviorSubject.attach,
    dispatchEvent, passThroughFilter, hab] at h3
  obtain ⟨rfl, rfl⟩ := h3
  refine ⟨⟨[(k, ⟨v, [⟨0, a, onA, passThroughFilter⟩,
      ⟨1, b, onB, passThroughFilter⟩]⟩)],
    [(a, [(k, 0)]), (b, [(k, 1)])], 2⟩, ?_⟩
  simp [Store.publish, BehaviorSubject.onNext, dispatchEvent,
    passThroughFilter]

/-- C2 witness: subscribers 0 and 1 on key path 0, publishing 5. -/
theorem publish_two_subscribers_in_order_witness :
    ∃ (st1 st2 st3 : Store Nat Nat Int)
      (evs2 evs3 : List (Event Nat Int)) (st4 : Store Nat Nat Int),
      Store.initialize (Store.empty : Store Nat Nat Int) 0 0 = .ok st1 ∧
      st1.subscribe 0 [⟨0, 10, none⟩] = .ok (st2, evs2) ∧
      st2.subscribe 1 [⟨0, 11, none⟩] = .ok (st3, evs3) ∧
      st3.publish 0 5 = .ok (st4, [⟨0, 10, 5⟩, ⟨1, 11, 5⟩]) := by
  have h1 : Store.initialize (Store.empty : Store Nat Nat Int) 0 0 =
      .ok ⟨[(0, ⟨0, []⟩)], [], 0⟩ := rfl
  have h2 : (⟨[(0, ⟨0, []⟩)], [], 0⟩ : Store Nat Nat Int).subscribe 0
        [⟨0, 10, none⟩] =
      .ok (⟨[(0, ⟨0, [⟨0, 0, 10, passThroughFilter⟩]⟩)],
        [(0, [(0, 0)])], 1⟩, [⟨0, 10, 0⟩]) := rfl
  have h3 : (⟨[(0, ⟨0, [⟨0, 0, 10, passThroughFilter⟩]⟩)],
        [(0, [(0, 0)])], 1⟩ : Store Nat Nat Int).subscribe 1
        [⟨0, 11, none⟩] =
      .ok (⟨[(0, ⟨0, [⟨0, 0, 10, passThroughFilter⟩,
          ⟨1, 1, 11, passThroughFilter⟩]⟩)],
        [(0, [(0, 0)]), (1, [(0, 1)])], 2⟩, [⟨1, 11, 0⟩]) := rfl
  obtain ⟨st4, h4⟩ :=
    publish_two_subscribers_in_order 0 1 0 0 5 10 11 _ _ _ _ _
      (by decide) h1 h2 h3
  exact ⟨_, _, _, _, _, st4, h1, h2, h3, h4⟩

/-- C7: the value delivered to onValue is the configured filter applied to
the published value — `filter(subscriber, v)` when a filter is supplied
(e.g. doubling 3 yields 6), the raw published value when no filter is
supplied, and the published value itself when the filter is the identity
function, at every value type `α`. -/
theorem publish_applies_filter
    (s : σ) (k : κ) (onV : Nat) (fo : Option (σ → α → α)) (d v : α)
    (st1 st2 : Store κ σ α) (evs0 : List (Event σ α))
    (h1 : Store.initialize (Store.empty : Store κ σ α) k d = .ok st1)
    (h2 : st1.subscribe s [⟨k, onV, fo⟩] = .ok (st2, evs0)) :
    (∃ st3, st2.publish k v =
      .ok (st3, [⟨s, onV, (fo.getD passThroughFilter) s v⟩])) ∧
    (fo = none →
      ∃ st3, st2.publish k v = .ok (st3, [⟨s, onV, v⟩])) ∧
    (fo = some (fun _ x => x) →
      ∃ st3, st2.publish k v = .ok (st3, [⟨s, onV, v⟩])) := by
  simp [ Store.initialize, Store.empty, behaviorSubjectFactory] at h1
  obtain rfl := h1
  simp [Store.subscribe, subscribeInstall, subscribeConfigs,
    BehaviorSubject.attach,
    dispatchEvent] at h2
  obtain ⟨rfl, rfl⟩ := h2
  refine ⟨⟨⟨[(k, ⟨v, [⟨0, s, onV, fo.getD passThroughFilter⟩]⟩)],
      [(s, [(k, 0)])], 1⟩, ?_⟩, ?_, ?_⟩
  · simp [Store.publish, BehaviorSubject.onNext, dispatchEvent]
  · rintro rfl
    refine ⟨⟨[(k, ⟨v,
        [⟨0, s, onV, Option.getD none passThroughFilter⟩]⟩)],
      [(s, [(k, 0)])], 1⟩, ?_⟩
    simp [Store.publish, BehaviorSubject.onNext, dispatchEvent,
      passThroughFilter]
  · rintro rfl
    refine ⟨⟨[(k, ⟨v,
        [⟨0, s, onV, Option.getD (some (fun _ x => x)) passThroughFilter⟩]⟩)],
      [(s, [(k, 0)])], 1⟩, ?_⟩
    simp [Store.publish, BehaviorSubject.onNext, dispatchEvent]

/-- C7 witness: a doubling filter on `Int`; publishing 3 delivers 6. -/
theorem publish_applies_filter_witness :
    ∃ st3 : Store Nat Nat Int,
      (⟨[(0, ⟨0, [⟨0, 2, 10, fun _ x => x * 2⟩]⟩)],
          [(2, [(0, 0)])], 1⟩ : Store Nat Nat Int).publish 0 3 =
        .ok (st3, [⟨2, 10, 6⟩]) := by
  have h1 : Store.initialize (Store.empty : Store Nat Nat Int) 0 0 =
      .ok ⟨[(0, ⟨0, []⟩)], [], 0⟩ := rfl
  have h2 : (⟨[(0, ⟨0, []⟩)], [], 0⟩ : Store Nat Nat Int).subscribe 2
        [⟨0, 10, some (fun _ x => x * 2)⟩] =
      .ok (⟨[(0, ⟨0, [⟨0, 2, 10, fun _ x => x * 2⟩]⟩)],
        [(2, [(0, 0)])], 1⟩, [⟨2, 10, 0⟩]) := rfl
  obtain ⟨st3, h⟩ :=
    (publish_applies_filter 2 0 10 (some (fun _ x => x * 2)) 0 3 _ _ _
      h1 h2).1
  exact ⟨st3, h⟩

/-- C10: with the default replay-latest factory, subscribe synchronously
delivers the subject's current value, through the entry's filter, to the
entry's onValue: the initialize default when nothing has been published
yet, otherwise the most recently published value. -/
theorem subscribe_replays_latest
    (s s' : σ) (k : κ) (d v : α) (onV onV' : Nat)
    (fo fo' : Option (σ → α → α))
    (st1 st2 st3 st4 : Store κ σ α)
    (evs2 pubEvs evs4 : List (Event σ α))
    (hss : s ≠ s')
    (h1 : Store.initialize (Store.empty : Store κ σ α) k d = .ok st1)
    (h2 : st1.subscribe s [⟨k, onV, fo⟩] = .ok (st2, evs2))
    (h3 : st2.publish k v = .ok (st3, pubEvs))
    (h4 : st3.subscribe s' [⟨k, onV', fo'⟩] = .ok (st4, evs4)) :
    evs2 = [⟨s, onV, (fo.getD passThroughFilter) s d⟩] ∧
    evs4 = [⟨s', onV', (fo'.getD passThroughFilter) s' v⟩] := by
  simp [ Store.initialize, Store.empty, behaviorSubjectFactory] at h1
  obtain rfl := h1
  simp [Store.subscribe, subscribeInstall, subscribeConfigs,
    BehaviorSubject.attach,
    dispatchEvent] at h2
  obtain ⟨rfl, rfl⟩ := h2
  simp [Store.publish, BehaviorSubject.onNext, dispatchEvent] at h3
  obtain ⟨rfl, rfl⟩ := h3
  simp [Store.subscribe, subscribeInstall, subscribeConfigs,
    BehaviorSubject.attach,
    dispatchEvent, hss] at h4
  obtain ⟨rfl, rfl⟩ := h4
  exact ⟨rfl, rfl⟩

/-- C10 witness: subscriber 0 sees the default 0 at subscribe time; after
publishing 9, subscriber 1 sees 9 at subscribe time. -/
theorem subscribe_replays_latest_witness :
    ∃ (st1 st2 st3 st4 : Store Nat Nat Int)
      (pubEvs : List (Event Nat Int)),
      Store.initialize (Store.empty : Store Nat Nat Int) 0 0 = .ok st1 ∧
      st1.subscribe 0 [⟨0, 10, none⟩] = .ok (st2, [⟨0, 10, 0⟩]) ∧
      st2.publish 0 9 = .ok (st3, pubEvs) ∧
      st3.subscribe 1 [⟨0, 11, none⟩] = .ok (st4, [⟨1, 11, 9⟩]) := by
  have h1 : Store.initialize (Store.empty : Store Nat Nat Int) 0 0 =
      .ok ⟨[(0, ⟨0, []⟩)], [], 0⟩ := rfl
  have h2 : (⟨[(0, ⟨0, []⟩)], [], 0⟩ : Store Nat Nat Int).subscribe 0
        [⟨0, 10, none⟩] =
      .ok (⟨[(0, ⟨0, [⟨0, 0, 10, passThroughFilter⟩]⟩)],
        [(0, [(0, 0)])], 1⟩, [⟨0, 10, 0⟩]) := rfl
  have h3 : (⟨[(0, ⟨0, [⟨0, 0, 10, passThroughFilter⟩]⟩)],
        [(0, [(0, 0)])], 1⟩ : Store Nat Nat Int).publish 0 9 =
      .ok (⟨[(0, ⟨9, [⟨0, 0, 10, passThroughFilter⟩]⟩)],
        [(0, [(0, 0)])], 1⟩, [⟨0, 10, 9⟩]) := rfl
  have h4 : (⟨[(0, ⟨9, [⟨0, 0, 10, passThroughFilter⟩]⟩)],
        [(0, [(0, 0)])], 1⟩ : Store Nat Nat Int).subscribe 1
        [⟨0, 11, none⟩] =
      .ok (⟨[(0, ⟨9, [⟨0, 0, 10, passThroughFilter⟩,
          ⟨1, 1, 11, passThroughFilter⟩]⟩)],
        [(0, [(0, 0)]), (1, [(0, 1)])], 2⟩, [⟨1, 11, 9⟩]) := rfl
  obtain ⟨e2, e4⟩ :=
    subscribe_replays_latest 0 1 0 0 9 10 11 none none _ _ _ _ _ _ _
      (by decide) h1 h2 h3 h4
  exact ⟨_, _, _, _, _, h1, h2, h3, h4⟩

end Claims

section InvariantSpecs

variable [DecidableEq κ] [DecidableEq σ]

omit [DecidableEq σ] in
/-- Reading `handlesBounded` as a proposition about table lookups. -/
theorem handlesBounded_spec (st : Store κ σ α)
    (h : st.handlesBounded = true) :
    ∀ k subj, findEntry k st.observables = some subj →
      ∀ o ∈ subj.observers, o.handle < st.nextHandle := by
  intro k subj hfind o ho
  have hmem := findEntry_some_mem hfind
  simp only [Store.handlesBounded, List.all_eq_true] at h
  have h1 := h _ hmem o ho
  simpa using h1

/-- Reading `subscriberRecorded` as a proposition about table lookups. -/
theorem subscriberRecorded_spec (st : Store κ σ α) (s : σ)
    (h : st.subscriberRecorded s = true) :
    ∀ k subj, findEntry k st.observables = some subj →
      ∀ o ∈ subj.observers, o.subscriber = s →
        ∃ hs, findEntry s st.subscriptions = some hs ∧
          (k, o.handle) ∈ hs := by
  intro k subj hfind o ho hos
  have hmem := findEntry_some_mem hfind
  simp only [Store.subscriberRecorded, List.all_eq_true] at h
  have h1 := h _ hmem o ho
  rw [if_pos hos] at h1
  cases hfs : findEntry s st.subscriptions with
  | none =>
      rw [hfs] at h1
      exact absurd h1 (by simp)
  | some hs =>
      rw [hfs] at h1
      exact ⟨hs, rfl, by simpa using h1⟩

/-- The successful branch of `unsubscribe`, written out. -/
theorem unsubscribe_ok (st : Store κ σ α) (s : σ)
    (handles : List (κ × Nat))
    (h : findEntry s st.subscriptions = some handles) :
    st.unsubscribe s =
      .ok { st with
              observables := disposeAll handles st.observables,
              subscriptions :=
                st.subscriptions.filter (fun p => decide (p.1 ≠ s)) } := by
  simp only [Store.unsubscribe, h]

end InvariantSpecs

section ClaimsTwo

variable [DecidableEq κ] [DecidableEq σ]

/-- C8: `unsubscribe` on a subscriber with an active subscription set
disposes every handle in the subscriber's list, removes the subscriber's
entry from the subscription table (so `hasSubscriptions` becomes false),
and no subsequent publish, on any key path, invokes any onValue on behalf
of that subscriber.  The recorded-handles hypothesis is the bookkeeping
invariant every store reachable through the API satisfies. -/
theorem unsubscribe_stops_dispatch
    (st : Store κ σ α) (s : σ) (hs0 : List (κ × Nat))
    (hentry : findEntry s st.subscriptions = some hs0)
    (hrec : st.subscriberRecorded s = true) :
    ∃ st1, st.unsubscribe s = .ok st1 ∧
      st1.hasSubscriptions s = false ∧
      ∀ (k : κ) (v : α) (st2 : Store κ σ α) (evs : List (Event σ α)),
        st1.publish k v = .ok (st2, evs) →
        ∀ e ∈ evs, e.subscriber ≠ s := by
  refine ⟨{ st with
      observables := disposeAll hs0 st.observables,
      subscriptions :=
        st.subscriptions.filter (fun p => decide (p.1 ≠ s)) },
    unsubscribe_ok st s hs0 hentry, ?_, ?_⟩
  · simp only [Store.hasSubscriptions]
    rw [findEntry_filter_ne_self]
    rfl
  · intro k v st2 evs hpub e he hes
    rw [Store.publish] at hpub
    split at hpub
    · exact absurd hpub (by simp)
    · rename_i subj2 hfind2
      simp only [Except.ok.injEq, Prod.mk.injEq] at hpub
      obtain ⟨_, h2⟩ := hpub
      subst h2
      obtain ⟨o, ho, rfl⟩ := List.mem_map.mp he
      obtain ⟨subj, hfind, _, hmem⟩ :=
        (disposeAll_structure hs0 st.observables k).2 subj2 hfind2
      obtain ⟨homem, hnotin⟩ := hmem o ho
      obtain ⟨hs1, hfs1, hin1⟩ :=
        subscriberRecorded_spec st s hrec k subj hfind o homem hes
      rw [hentry] at hfs1
      obtain rfl := Option.some.inj hfs1
      exact hnotin hin1

/-- C8 witness: a store with one recorded registration for subscriber 2;
after unsubscribing, publishing dispatches nothing to subscriber 2. -/
theorem unsubscribe_stops_dispatch_witness :
    ∃ st1 : Store Nat Nat Int,
      (⟨[(0, ⟨7, [⟨0, 2, 10, passThroughFilter⟩]⟩)], [(2, [(0, 0)])], 1⟩ :
          Store Nat Nat Int).unsubscribe 2 = .ok st1 ∧
      st1.hasSubscriptions 2 = false ∧
      ∀ (k : Nat) (v : Int) (st2 : Store Nat Nat Int)
        (evs : List (Event Nat Int)),
        st1.publish k v = .ok (st2, evs) →
        ∀ e ∈ evs, e.subscriber ≠ 2 :=
  unsubscribe_stops_dispatch
    (⟨[(0, ⟨7, [⟨0, 2, 10, passThroughFilter⟩]⟩)], [(2, [(0, 0)])], 1⟩ :
      Store Nat Nat Int) 2 [(0, 0)] rfl (by decide)

/-- Unpacking a successful install phase of `subscribe`. -/
theorem subscribeInstall_spec (st : Store κ σ α) (s : σ)
    (cs : List (Config κ σ α)) (st' : Store κ σ α)
    (evs : List (Event σ α))
    (h : subscribeInstall st s cs = .ok (st', evs)) :
    ∃ obs' hsB,
      subscribeConfigs s st.observables st.nextHandle cs =
        .ok (obs', hsB, st.nextHandle + cs.length, evs) ∧
      st' = { st with
                observables := obs',
                subscriptions := st.subscriptions ++ [(s, hsB)],
                nextHandle := st.nextHandle + cs.length } := by
  simp only [subscribeInstall] at h
  split at h
  · exact absurd h (by simp)
  · rename_i r obs' hsB n' evs' hrec
    simp only [Except.ok.injEq, Prod.mk.injEq] at h
    obtain ⟨h1, h2⟩ := h
    subst h2
    have hn := (subscribeConfigs_spec s cs _ _ _ _ _ _ hrec).2.1
    subst hn
    exact ⟨obs', hsB, hrec, h1.symm⟩

/-- C3: a successful `subscribe(S, C)` installs exactly `C.length` dispatch
registrations for S, recorded in the order of C (the recorded key paths are
`C`'s observable keys, in order); a second `subscribe(S, C2)` while S is
registered first disposes all prior registrations before installing C2's
(recorded likewise, in C2's order), so that afterwards no subject anywhere
retains an observer carrying a handle from the first call's list — the
replaced registrations receive no dispatch from any subsequent publish
(full replace, not additive).  The bounded-handles hypothesis is the
freshness invariant every store reachable through the API satisfies. -/
theorem subscribe_replaces_previous_registrations
    (st : Store κ σ α) (s : σ) (C C2 : List (Config κ σ α))
    (hwf : st.handlesBounded = true)
    (st1 st2 : Store κ σ α) (evs1 evs2 : List (Event σ α))
    (h1 : st.subscribe s C = .ok (st1, evs1))
    (hs : List (κ × Nat))
    (hhs : findEntry s st1.subscriptions = some hs)
    (h2 : st1.subscribe s C2 = .ok (st2, evs2)) :
    hs.length = C.length ∧
    hs.map Prod.fst = C.map Config.observableKey ∧
    (∃ hs2, findEntry s st2.subscriptions = some hs2 ∧
      hs2.length = C2.length ∧
      hs2.map Prod.fst = C2.map Config.observableKey) ∧
    (∀ k subj, findEntry k st2.observables = some subj →
      ∀ o ∈ subj.observers, o.handle ∉ hs.map Prod.snd) := by
  obtain ⟨stA, hA1, hAnone, hAnext, hAbound⟩ :
      ∃ stA : Store κ σ α,
        subscribeInstall stA s C = .ok (st1, evs1) ∧
        findEntry s stA.subscriptions = none ∧
        stA.nextHandle = st.nextHandle ∧
        (∀ k subj, findEntry k stA.observables = some subj →
          ∀ o ∈ subj.observers, o.handle < st.nextHandle) := by
    cases hpre : findEntry s st.subscriptions with
    | none =>
        simp only [Store.subscribe, hpre] at h1
        exact ⟨st, h1, hpre, rfl, handlesBounded_spec st hwf⟩
    | some hsPre =>
        simp only [Store.subscribe, hpre] at h1
        refine ⟨_, h1, findEntry_filter_ne_self s _, rfl, ?_⟩
        intro k subj hfind o ho
        obtain ⟨subj0, hf0, _, hm⟩ :=
          (disposeAll_structure hsPre st.observables k).2 subj hfind
        exact handlesBounded_spec st hwf k subj0 hf0 o (hm o ho).1
  obtain ⟨obsB, hsB, hrecB, hst1⟩ :=
    subscribeInstall_spec stA s C st1 evs1 hA1
  subst hst1
  have hhs' : findEntry s (stA.subscriptions ++ [(s, hsB)]) = some hs := hhs
  rw [findEntry_append, hAnone] at hhs'
  simp at hhs'
  subst hhs'
  have specB := subscribeConfigs_spec s C _ _ _ _ _ _ hrecB
  have hlenB : hsB.length = C.length := by
    have := congrArg List.length specB.1
    simpa using this
  have hB1 : ∀ k subj, findEntry k obsB = some subj →
      ∀ o ∈ subj.observers,
        o.handle < stA.nextHandle + C.length ∧
        (stA.nextHandle ≤ o.handle → (k, o.handle) ∈ hsB) := by
    intro k subj hfind o ho
    obtain ⟨subjA, neu, hfA, _, hobs, hneu⟩ := specB.2.2.2 k subj hfind
    rw [hobs] at ho
    rcases List.mem_append.mp ho with hoA | hoN
    · have hlt := hAbound k subjA hfA o hoA
      rw [← hAnext] at hlt
      exact ⟨by omega, fun hge => absurd hlt (by omega)⟩
    · obtain ⟨hg1, hg2, _, hg4⟩ := hneu o hoN
      exact ⟨hg2, fun _ => hg4⟩
  simp only [Store.subscribe, hhs] at h2
  obtain ⟨obsD, hsD, hrecD, hst2⟩ :=
    subscribeInstall_spec _ s C2 st2 evs2 h2
  subst hst2
  have hC1 : ∀ k subj, findEntry k (disposeAll hsB obsB) = some subj →
      ∀ o ∈ subj.observers, o.handle < stA.nextHandle := by
    intro k subj hfind o ho
    obtain ⟨subjB, hfB, _, hm⟩ :=
      (disposeAll_structure hsB obsB k).2 subj hfind
    obtain ⟨homem, hnotin⟩ := hm o ho
    have hb := hB1 k subjB hfB o homem
    rcases Nat.lt_or_ge o.handle stA.nextHandle with hlt | hge
    · exact hlt
    · exact absurd (hb.2 hge) hnotin
  have specD := subscribeConfigs_spec s C2 _ _ _ _ _ _ hrecD
  have hlenD : hsD.length = C2.length := by
    have := congrArg List.length specD.1
    simpa using this
  refine ⟨hlenB, specB.1, ⟨hsD, ?_, hlenD, specD.1⟩, ?_⟩
  · have hnone2 : findEntry s
        ((stA.subscriptions ++ [(s, hsB)]).filter
          (fun p => decide (p.1 ≠ s))) = none :=
      findEntry_filter_ne_self s _
    have : findEntry s
        (((stA.subscriptions ++ [(s, hsB)]).filter
            (fun p => decide (p.1 ≠ s))) ++ [(s, hsD)]) = some hsD := by
      rw [findEntry_append, hnone2]
      simp
    exact this
  · intro k subj hfind o ho hin
    obtain ⟨p, hp, hph⟩ := List.mem_map.mp hin
    have hpb := specB.2.2.1 p hp
    obtain ⟨subjC, neu, hfC, _, hobs, hneu⟩ := specD.2.2.2 k subj hfind
    rw [hobs] at ho
    rcases List.mem_append.mp ho with hoC | hoN
    · have := hC1 k subjC hfC o hoC
      omega
    · have hneu1 : stA.nextHandle + C.length ≤ o.handle := (hneu o hoN).1
      omega

/-- C3 witness: subscriber 5 subscribes with one entry, then re-subscribes
with a different entry; the old registration's handle is attached nowhere
afterwards. -/
theorem subscribe_replaces_previous_registrations_witness :
    (([(0, 0)] : List (Nat × Nat)).length =
      ([⟨0, 10, none⟩] : List (Config Nat Nat Int)).length) ∧
    ([(0, 0)] : List (Nat × Nat)).map Prod.fst =
      ([⟨0, 10, none⟩] : List (Config Nat Nat Int)).map
        Config.observableKey ∧
    (∃ hs2, findEntry 5
        (⟨[(0, ⟨0, [⟨1, 5, 11, passThroughFilter⟩]⟩)],
          [(5, [(0, 1)])], 2⟩ : Store Nat Nat Int).subscriptions =
          some hs2 ∧
      hs2.length = ([⟨0, 11, none⟩] : List (Config Nat Nat Int)).length ∧
      hs2.map Prod.fst =
        ([⟨0, 11, none⟩] : List (Config Nat Nat Int)).map
          Config.observableKey) ∧
    (∀ k subj, findEntry k
        (⟨[(0, ⟨0, [⟨1, 5, 11, passThroughFilter⟩]⟩)],
          [(5, [(0, 1)])], 2⟩ : Store Nat Nat Int).observables =
          some subj →
      ∀ o ∈ subj.observers,
        o.handle ∉ ([(0, 0)] : List (Nat × Nat)).map Prod.snd) := by
  have h1 : (⟨[(0, ⟨0, []⟩)], [], 0⟩ : Store Nat Nat Int).subscribe 5
        [⟨0, 10, none⟩] =
      .ok (⟨[(0, ⟨0, [⟨0, 5, 10, passThroughFilter⟩]⟩)],
        [(5, [(0, 0)])], 1⟩, [⟨5, 10, 0⟩]) := rfl
  have hhs : findEntry 5
      (⟨[(0, ⟨0, [⟨0, 5, 10, passThroughFilter⟩]⟩)],
        [(5, [(0, 0)])], 1⟩ : Store Nat Nat Int).subscriptions =
      some [(0, 0)] := rfl
  have h2 : (⟨[(0, ⟨0, [⟨0, 5, 10, passThroughFilter⟩]⟩)],
        [(5, [(0, 0)])], 1⟩ : Store Nat Nat Int).subscribe 5
        [⟨0, 11, none⟩] =
      .ok (⟨[(0, ⟨0, [⟨1, 5, 11, passThroughFilter⟩]⟩)],
        [(5, [(0, 1)])], 2⟩, [⟨5, 11, 0⟩]) := rfl
  exact subscribe_replaces_previous_registrations
    (⟨[(0, ⟨0, []⟩)], [], 0⟩ : Store Nat Nat Int) 5
    [⟨0, 10, none⟩] [⟨0, 11, none⟩] (by decide)
    ⟨[(0, ⟨0, [⟨0, 5, 10, passThroughFilter⟩]⟩)], [(5, [(0, 0)])], 1⟩
    ⟨[(0, ⟨0, [⟨1, 5, 11, passThroughFilter⟩]⟩)], [(5, [(0, 1)])], 2⟩
    [⟨5, 10, 0⟩] [⟨5, 11, 0⟩] h1 [(0, 0)] hhs h2

end ClaimsTwo

end ObservableStore
